import Mathlib

/-!
Verification of the MQXLIFF merge engine (`merge_excel_into_mqxliff.py`).

The document tree, the plain-text extraction, the trans-unit traversal,
the matcher/updater and the report generator are shallowly embedded below,
following the Python source line by line.  ElementTree elements become the
`Elem` inductive (tag, attribute list, leading text, children, trailing
tail); `None` texts/tails are represented by `""`, which Python's
truthiness tests treat identically when concatenating.
-/

/-- An XML element as produced by `xml.etree.ElementTree`:
tag, attributes (insertion ordered, unique keys), leading text,
children, and trailing tail text. -/
inductive Elem : Type where
  | mk : String → List (String × String) → String → List Elem → String → Elem

mutual
def elemDecEq : (a b : Elem) → Decidable (a = b)
  | .mk t1 a1 x1 c1 l1, .mk t2 a2 x2 c2 l2 =>
    match decEq t1 t2, decEq a1 a2, decEq x1 x2, elemsDecEq c1 c2, decEq l1 l2 with
    | isTrue h1, isTrue h2, isTrue h3, isTrue h4, isTrue h5 =>
        isTrue (by rw [h1, h2, h3, h4, h5])
    | isFalse h, _, _, _, _ => isFalse (by intro q; cases q; exact h rfl)
    | _, isFalse h, _, _, _ => isFalse (by intro q; cases q; exact h rfl)
    | _, _, isFalse h, _, _ => isFalse (by intro q; cases q; exact h rfl)
    | _, _, _, isFalse h, _ => isFalse (by intro q; cases q; exact h rfl)
    | _, _, _, _, isFalse h => isFalse (by intro q; cases q; exact h rfl)
def elemsDecEq : (a b : List Elem) → Decidable (a = b)
  | [], [] => isTrue rfl
  | [], _ :: _ => isFalse (by intro q; cases q)
  | _ :: _, [] => isFalse (by intro q; cases q)
  | a :: as, b :: bs =>
    match elemDecEq a b, elemsDecEq as bs with
    | isTrue h1, isTrue h2 => isTrue (by rw [h1, h2])
    | isFalse h, _ => isFalse (by intro q; cases q; exact h rfl)
    | _, isFalse h => isFalse (by intro q; cases q; exact h rfl)
end

instance : DecidableEq Elem := elemDecEq

def Elem.tag : Elem → String
  | .mk t _ _ _ _ => t

def Elem.attrs : Elem → List (String × String)
  | .mk _ a _ _ _ => a

def Elem.text : Elem → String
  | .mk _ _ x _ _ => x

def Elem.children : Elem → List Elem
  | .mk _ _ _ cs _ => cs

def Elem.tail : Elem → String
  | .mk _ _ _ _ tl => tl

/-- Python's `str.endswith` on tag names: `suf` is a suffix of `s`. -/
def endswith (s suf : String) : Bool := suf.data.isSuffixOf s.data

/-- `"".join parts` from the Python source. -/
def strJoin : List String → String
  | [] => ""
  | s :: l => s ++ strJoin l

mutual
/-- `text_content(elem)` from the source: concatenated text of an element,
including nested tags (`parts` accumulates `elem.text` when truthy, then
for each child its recursive text followed by the child's truthy tail). -/
def text_content : Elem → String
  | .mk _ _ x cs _ => strJoin ((if x = "" then [] else [x]) ++ tcParts cs)
def tcParts : List Elem → List String
  | [] => []
  | c :: cs => (text_content c :: (if c.tail = "" then [] else [c.tail])) ++ tcParts cs
end

mutual
/-- Modelled from the spec's words (§3 Plain Text Content): "the element's
own leading text, then for each child, its own recursively-derived plain
text followed by that child's trailing text", used only to compare with
the source's `text_content`. -/
def specTextContent : Elem → String
  | .mk _ _ x cs _ => x ++ specTcList cs
/-- Spec-side helper for `specTextContent`: concatenation over a child list. -/
def specTcList : List Elem → String
  | [] => ""
  | c :: cs => (specTextContent c ++ c.tail) ++ specTcList cs
end

/-- Python's `str.strip()`: drop whitespace from both ends. -/
def pyStrip (s : String) : String :=
  ⟨((s.data.dropWhile Char.isWhitespace).reverse.dropWhile Char.isWhitespace).reverse⟩

/-- Python dict `d[k] = v`: replace in place if the key exists, else append. -/
def setAttr (k v : String) : List (String × String) → List (String × String)
  | [] => [(k, v)]
  | (k', v') :: rest => if k' = k then (k, v) :: rest else (k', v') :: setAttr k v rest

/-- The expanded `xml:lang` attribute key used by `ensure_target_child`. -/
def xmlLangKey : String := "{http://www.w3.org/XML/1998/namespace}lang"

/-- The attribute/text mutation applied to an existing `<target>` element on a
hit: `ensure_target_child` sets `xml:lang`, then `target.text = value`, then
`set_memoq_state_attrs` sets `state="translated"`.  Children and tail are kept. -/
def updateTarget (lang v : String) (t : Elem) : Elem :=
  match t with
  | .mk tag attrs _ cs tl =>
      .mk tag (setAttr "state" "translated" (setAttr xmlLangKey lang attrs)) v cs tl

/-- The fresh `<target>` created by `ET.SubElement(tu, "target")` when the unit
has no direct child tagged exactly `"target"`, after the same mutations. -/
def newTarget (lang v : String) : Elem :=
  .mk "target" (setAttr "state" "translated" (setAttr xmlLangKey lang [])) v [] ""

/-- `tu.find("target")` followed by the hit mutations: the first direct child
whose tag is exactly `"target"` is updated in place; if none exists a fresh
target is appended at the end of the child list. -/
def updateTargetChild (lang v : String) : List Elem → List Elem
  | [] => [newTarget lang v]
  | c :: cs =>
      if c.tag = "target" then updateTarget lang v c :: cs
      else c :: updateTargetChild lang v cs

/-- The source's search for the unit's source: the first direct child whose
tag ends with `"source"`. -/
def findSource (cs : List Elem) : Option Elem :=
  cs.find? (fun c => endswith c.tag "source")

/-- An element is traversed as a trans-unit iff its tag ends with
`"trans-unit"` (`tu.tag.endswith("trans-unit")`). -/
def isTU (e : Elem) : Bool := endswith e.tag "trans-unit"

/-- Running totals of `process_mqxliff`: `total_tus`, `updated`, and the raw
(pre-deduplication) `missing_sources` list in visit order. -/
structure Stats where
  total : Nat
  updated : Nat
  missing : List String
deriving DecidableEq, Repr

def Stats.add (a b : Stats) : Stats :=
  ⟨a.total + b.total, a.updated + b.updated, a.missing ++ b.missing⟩

def Stats.zero : Stats := ⟨0, 0, []⟩

mutual
/-- One step of the `for tu in iter_trans_units()` loop together with the
pre-order traversal of `root.iter()`: if the element's tag ends in
`"trans-unit"` it is counted and classified (skip when it has no
source-suffixed child or its trimmed plain text is empty; update on a
Pair-Table hit; record the plain text on a miss), and in every case the
traversal continues into the (possibly updated) children.  Decisions are
taken on the original subtree, exactly as the in-place pre-order loop
does, since the loop's mutations never touch any source subtree it has
yet to read. -/
def processElem (pairs : List (String × String)) (lang : String) : Elem → Elem × Stats
  | .mk tag attrs text cs tl =>
    if endswith tag "trans-unit" then
      match findSource cs with
      | none =>
          let r := processList pairs lang cs
          (.mk tag attrs text r.1 tl, Stats.add ⟨1, 0, []⟩ r.2)
      | some s =>
          let plain := pyStrip (text_content s)
          if plain = "" then
            let r := processList pairs lang cs
            (.mk tag attrs text r.1 tl, Stats.add ⟨1, 0, []⟩ r.2)
          else
            match pairs.lookup plain with
            | some v =>
                let r := processList pairs lang cs
                (.mk tag (setAttr "approved" "yes" attrs) text
                   (updateTargetChild lang v r.1) tl,
                 Stats.add ⟨1, 1, []⟩ r.2)
            | none =>
                let r := processList pairs lang cs
                (.mk tag attrs text r.1 tl, Stats.add ⟨1, 0, [plain]⟩ r.2)
    else
      let r := processList pairs lang cs
      (.mk tag attrs text r.1 tl, r.2)
def processList (pairs : List (String × String)) (lang : String) :
    List Elem → List Elem × Stats
  | [] => ([], Stats.zero)
  | c :: cs =>
      let r1 := processElem pairs lang c
      let r2 := processList pairs lang cs
      (r1.1 :: r2.1, Stats.add r1.2 r2.2)
end

/-- Python string `<=`: lexicographic comparison by code points, as used by
`sorted(...)`. -/
def strLeAux : List Char → List Char → Bool
  | [], _ => true
  | _ :: _, [] => false
  | a :: as, b :: bs =>
      if a.toNat < b.toNat then true
      else if b.toNat < a.toNat then false
      else strLeAux as bs

def strLe (a b : String) : Bool := strLeAux a.data b.data

/-- The sort order used to model `sorted(set(missing_sources))`. -/
def strLeRel (a b : String) : Prop := strLe a b = true

instance : DecidableRel strLeRel := fun a b => instDecidableEqBool (strLe a b) true

/-- `sorted(set(missing_sources))`: deduplicate, then sort ascending. -/
def sortedMissing (l : List String) : List String :=
  l.dedup.insertionSort strLeRel

/-- The rows of the `_missing_sources.csv` file: a header, then one distinct
unmatched source per row, sorted. -/
def csvRows (missing : List String) : List String :=
  "SourceWithoutMatch" :: sortedMissing missing

/-- `os.path.splitext(p)[0]` on the reversed character list: drop the
extension that starts at the last dot of the basename, provided some
earlier character of the basename is not a dot. -/
def splitextRev : List Char → Option (List Char)
  | [] => none
  | c :: rest =>
      if c = '/' then none
      else if c = '.' then
        if (rest.takeWhile (fun d => d ≠ '/')).any (fun d => d ≠ '.') then some rest
        else none
      else splitextRev rest

/-- `os.path.splitext(p)[0]`. -/
def splitextStem (p : String) : String :=
  match splitextRev p.data.reverse with
  | none => p
  | some r => ⟨r.reverse⟩

/-- `missing_csv = os.path.splitext(out_path)[0] + "_missing_sources.csv"`. -/
def missingCsvPath (outPath : String) : String :=
  splitextStem outPath ++ "_missing_sources.csv"

/-- The dictionary returned by `process_mqxliff`. -/
structure Report where
  total_trans_units : Nat
  updated_segments : Nat
  missing_sources_count : Nat
  missing_sources_csv : String
deriving DecidableEq, Repr

/-- The I/O actions `process_mqxliff` and `main` perform, in order. -/
inductive Event : Type where
  | readExcel
  | readDoc
  | writeDoc
  | writeCsv
deriving DecidableEq, Repr

/-- `process_mqxliff(mqxliff_path, pairs, out_path, target_lang)`: parse the
document, run the traversal, write the mutated tree, write the missing-sources
CSV, and return the report.  The result carries the mutated tree, the report,
the CSV rows, and the trace of document I/O performed. -/
def process_mqxliff (pairs : List (String × String)) (lang : String)
    (doc : Elem) (outPath : String) :
    (Elem × Report × List String) × List Event :=
  let r := processElem pairs lang doc
  ((r.1,
    { total_trans_units := r.2.total
      updated_segments := r.2.updated
      missing_sources_count := r.2.missing.dedup.length
      missing_sources_csv := missingCsvPath outPath },
    csvRows r.2.missing),
   [Event.readDoc, Event.writeDoc, Event.writeCsv])

/-- The `main` flow around the merge: the Pair Table is loaded first
(`load_excel_pairs`), and if it is empty the program prints an error and
exits with code 2 before the document is ever opened; otherwise
`process_mqxliff` runs. -/
def mainModel (pairs : List (String × String)) (lang : String)
    (doc : Elem) (outPath : String) :
    Except Nat (Elem × Report × List String) × List Event :=
  if pairs.isEmpty then (Except.error 2, [Event.readExcel])
  else
    let r := process_mqxliff pairs lang doc outPath
    (Except.ok r.1, Event.readExcel :: r.2)

mutual
/-- Static count of trans-units in a subtree that the loop skips with
`continue`: those with no source-suffixed direct child or with empty
trimmed plain text. -/
def skippedElem : Elem → Nat
  | .mk tag _ _ cs _ =>
    (if endswith tag "trans-unit" then
       match findSource cs with
       | none => 1
       | some s => if pyStrip (text_content s) = "" then 1 else 0
     else 0) + skippedL cs
/-- List companion of `skippedElem`. -/
def skippedL : List Elem → Nat
  | [] => 0
  | c :: cs => skippedElem c + skippedL cs
end

mutual
/-- Whether a subtree contains any element (itself included) whose tag ends
with `"trans-unit"`. -/
def containsTU : Elem → Bool
  | .mk tag _ _ cs _ => endswith tag "trans-unit" || containsTUL cs
def containsTUL : List Elem → Bool
  | [] => false
  | c :: cs => containsTU c || containsTUL cs
end

mutual
/-- No trans-unit of the tree is nested strictly inside another trans-unit. -/
def noNestedTU : Elem → Bool
  | .mk tag _ _ cs _ =>
      if endswith tag "trans-unit" then !containsTUL cs else noNestedTUL cs
def noNestedTUL : List Elem → Bool
  | [] => true
  | c :: cs => noNestedTU c && noNestedTUL cs
end

/-- Removes one attribute key (used to erase the mutated `approved` flag). -/
def removeAttr (k : String) : List (String × String) → List (String × String)
  | [] => []
  | (k', v) :: rest =>
      if k' = k then removeAttr k rest else (k', v) :: removeAttr k rest

/-- Drops the direct children tagged exactly `"target"` — the only children a
trans-unit's update ever modifies or appends. -/
def dropTargets (cs : List Elem) : List Elem :=
  cs.filter (fun c => c.tag ≠ "target")

mutual
/-- Frame-erasure: at every trans-unit, forget the `approved` attribute and
the direct `"target"` children; everything else is kept verbatim.  (The
children are scrubbed first and filtered afterwards; `scrub` preserves
tags, so this agrees with filtering first.) -/
def scrub : Elem → Elem
  | .mk tag attrs text cs tl =>
      if endswith tag "trans-unit" then
        .mk tag (removeAttr "approved" attrs) text (dropTargets (scrubL cs)) tl
      else
        .mk tag attrs text (scrubL cs) tl
def scrubL : List Elem → List Elem
  | [] => []
  | c :: cs => scrub c :: scrubL cs
end

/-! ### Concrete documents used to exercise the model -/

/-- An ElementTree qualified tag `{uri}local`, as produced by parsing a
namespaced document. -/
def nsTag (u loc : String) : String := ("\x7b" ++ u ++ "\x7d") ++ loc

/-- A minimal flat translation unit with the given source text. -/
def tuFlat (s : String) : Elem :=
  .mk "trans-unit" [] "" [.mk "source" [] s [] ""] ""

/-- The spec's concrete scenario: three units `"Hello"`, `"Bye"`, `"Yes"`. -/
def docScenario : Elem :=
  .mk "body" [] "" [tuFlat "Hello", tuFlat "Bye", tuFlat "Yes"] ""

/-- The spec scenario's Pair Table (ASCII stand-ins for the targets). -/
def pairsScenario : List (String × String) := [("Hello", "T1"), ("Yes", "T2")]

/-- A single-pair table used by several concrete documents. -/
def pairsHello : List (String × String) := [("Hello", "NEW")]

/-- A unit whose every tag carries the namespace `u`, with an existing
namespaced target child holding the text `"old"`. -/
def docNS (u : String) : Elem :=
  .mk "body" [] ""
    [.mk (nsTag u "trans-unit") [] ""
       [.mk (nsTag u "source") [] "Hello" [] "",
        .mk (nsTag u "target") [] "old" [] ""] ""] ""

/-- The same document as `docNS` with no namespace on any tag. -/
def docPlainTags : Elem :=
  .mk "body" [] ""
    [.mk "trans-unit" [] ""
       [.mk "source" [] "Hello" [] "",
        .mk "target" [] "old" [] ""] ""] ""

/-- A matched unit whose existing target carries a child element (`<b>x</b>`)
besides its old text. -/
def docTargetChild : Elem :=
  .mk "body" [] ""
    [.mk "trans-unit" [] ""
       [.mk "source" [] "Hello" [] "",
        .mk "target" [] "old" [.mk "b" [] "x" [] ""] ""] ""] ""

/-- A unit nested inside another unit's source: the outer unit's plain text
`"PQR"` contains the inner unit's source and target texts. -/
def docNested : Elem :=
  .mk "body" [] ""
    [.mk "trans-unit" [] ""
       [.mk "source" [] "P"
          [.mk "trans-unit" [] ""
             [.mk "source" [] "Q" [] "",
              .mk "target" [] "R" [] ""] ""] ""] ""] ""

/-- The Pair Table matching both units of `docNested` on the first run. -/
def pairsNested : List (String × String) := [("PQR", "V1"), ("Q", "W")]

/-- An unmatched outer unit (source `"ZZZ"`) carrying a matched nested unit
as a direct child after its source. -/
def docMissWithNested : Elem :=
  .mk "body" [] ""
    [.mk "trans-unit" [] ""
       [.mk "source" [] "ZZZ" [] "",
        .mk "trans-unit" [] ""
          [.mk "source" [] "Q" [] "",
           .mk "target" [] "R" [] ""] ""] ""] ""

/-- The Pair Table matching only the nested unit of `docMissWithNested`. -/
def pairsQ : List (String × String) := [("Q", "W")]

/-- A document whose only unit's tag is `"my-trans-unit"`: its local name is
not `"trans-unit"`, but it ends with it. -/
def docMyTU : Elem :=
  .mk "body" [] ""
    [.mk "my-trans-unit" [] "" [.mk "source" [] "Hello" [] ""] ""] ""

/-- A trans-unit with no source child at all. -/
def tuNoSource : Elem := .mk "trans-unit" [] "" [] ""

/-! ### String and suffix helper lemmas -/

theorem endswith_append (s t : String) : endswith (s ++ t) t = true := by
  have h : t.data <:+ (s ++ t).data := by
    rw [String.data_append]; exact List.suffix_append s.data t.data
  simp [endswith, (List.isSuffixOf_iff_suffix).mpr h]

theorem endswith_append_false {a b : String} (s : String)
    (h1 : ¬ a.data <:+ b.data) (h2 : ¬ b.data <:+ a.data) :
    endswith (s ++ a) b = false := by
  by_contra h
  have hb : b.data.isSuffixOf (s ++ a).data = true := by
    simpa [endswith] using h
  have hb' : b.data <:+ (s ++ a).data := (List.isSuffixOf_iff_suffix).mp hb
  have ha : a.data <:+ (s ++ a).data := by
    rw [String.data_append]; exact List.suffix_append s.data a.data
  rcases List.suffix_or_suffix_of_suffix ha hb' with h' | h'
  · exact h1 h'
  · exact h2 h'

theorem ne_of_length_append {s a b : String} (h : (s ++ a).length = b.length → False) :
    s ++ a ≠ b := by
  intro q
  exact h (by rw [q])

/-! ### Attribute dictionary lemmas -/

theorem setAttr_setAttr_same (k v w : String) (a : List (String × String)) :
    setAttr k v (setAttr k w a) = setAttr k v a := by
  induction a with
  | nil => simp [setAttr]
  | cons p rest ih =>
      rcases p with ⟨k', v'⟩
      by_cases h : k' = k
      · simp [setAttr, h]
      · simp [setAttr, h, ih]

theorem lookup_setAttr_same (k v : String) (a : List (String × String)) :
    List.lookup k (setAttr k v a) = some v := by
  induction a with
  | nil => simp [setAttr]
  | cons p rest ih =>
      rcases p with ⟨q, w⟩
      by_cases hq : q = k
      · simp [setAttr, hq]
      · have hb : (k == q) = false := by simp [Ne.symm hq]
        simp [setAttr, hq, List.lookup, hb, ih]

theorem lookup_setAttr_other {k k' : String} (v : String) (a : List (String × String))
    (h : k ≠ k') : List.lookup k (setAttr k' v a) = List.lookup k a := by
  induction a with
  | nil =>
      have hb : (k == k') = false := by simp [h]
      simp [setAttr, List.lookup, hb]
  | cons p rest ih =>
      rcases p with ⟨q, w⟩
      by_cases hq : q = k'
      · subst hq
        have hb : (k == q) = false := by simp [h]
        simp [setAttr, List.lookup, hb]
      · simp [setAttr, hq, List.lookup, ih]

theorem setAttr_lookup_self {k v : String} {a : List (String × String)}
    (h : List.lookup k a = some v) : setAttr k v a = a := by
  induction a with
  | nil => simp at h
  | cons p rest ih =>
      rcases p with ⟨q, w⟩
      by_cases hq : q = k
      · subst hq
        simp only [List.lookup, beq_self_eq_true, if_true] at h
        simp only [Option.some.injEq] at h
        simp [setAttr, h]
      · have : (k == q) = false := by simp [Ne.symm hq]
        simp only [List.lookup, this, cond_false] at h
        simp [setAttr, hq, ih h]

theorem removeAttr_setAttr (k v : String) (a : List (String × String)) :
    removeAttr k (setAttr k v a) = removeAttr k a := by
  induction a with
  | nil => simp [setAttr, removeAttr]
  | cons p rest ih =>
      rcases p with ⟨q, w⟩
      by_cases hq : q = k
      · simp [setAttr, removeAttr, hq]
      · simp [setAttr, removeAttr, hq, ih]

/-! ### Stats lemmas -/

theorem Stats.add_zero (s : Stats) : Stats.add s Stats.zero = s := by
  rcases s with ⟨t, u, m⟩
  simp [Stats.add, Stats.zero]

theorem Stats.zero_add (s : Stats) : Stats.add Stats.zero s = s := by
  rcases s with ⟨t, u, m⟩
  simp [Stats.add, Stats.zero]

/-! ### The sort order is total and transitive -/

theorem strLeAux_total : ∀ x y : List Char, strLeAux x y = true ∨ strLeAux y x = true
  | [], _ => Or.inl rfl
  | _ :: _, [] => Or.inr rfl
  | a :: as, b :: bs => by
      rcases Nat.lt_trichotomy a.toNat b.toNat with h | h | h
      · left; simp [strLeAux, h]
      · have h1 : ¬ a.toNat < b.toNat := by omega
        have h2 : ¬ b.toNat < a.toNat := by omega
        rcases strLeAux_total as bs with ih | ih
        · left; simp [strLeAux, h1, h2, ih]
        · right; simp [strLeAux, h1, h2, ih]
      · right; simp [strLeAux, h]

theorem strLeAux_trans : ∀ x y z : List Char,
    strLeAux x y = true → strLeAux y z = true → strLeAux x z = true
  | [], _, _ => fun _ _ => rfl
  | _ :: _, [], _ => fun h _ => by simp [strLeAux] at h
  | _ :: _, _ :: _, [] => fun _ h => by simp [strLeAux] at h
  | a :: as, b :: bs, c :: cs => fun h1 h2 => by
      simp only [strLeAux] at h1 h2 ⊢
      rcases Nat.lt_trichotomy a.toNat b.toNat with hab | hab | hab
      · rcases Nat.lt_trichotomy b.toNat c.toNat with hbc | hbc | hbc
        · simp [show a.toNat < c.toNat by omega]
        · simp [show a.toNat < c.toNat by omega]
        · exfalso
          simp only [if_neg (show ¬ b.toNat < c.toNat by omega),
            if_pos hbc] at h2
          exact absurd h2 (by simp)
      · rcases Nat.lt_trichotomy b.toNat c.toNat with hbc | hbc | hbc
        · simp [show a.toNat < c.toNat by omega]
        · have hac1 : ¬ a.toNat < c.toNat := by omega
          have hac2 : ¬ c.toNat < a.toNat := by omega
          simp only [if_neg (show ¬ a.toNat < b.toNat by omega),
            if_neg (show ¬ b.toNat < a.toNat by omega)] at h1
          simp only [if_neg (show ¬ b.toNat < c.toNat by omega),
            if_neg (show ¬ c.toNat < b.toNat by omega)] at h2
          simp [hac1, hac2, strLeAux_trans as bs cs h1 h2]
        · exfalso
          simp only [if_neg (show ¬ b.toNat < c.toNat by omega),
            if_pos hbc] at h2
          exact absurd h2 (by simp)
      · exfalso
        simp only [if_neg (show ¬ a.toNat < b.toNat by omega),
          if_pos hab] at h1
        exact absurd h1 (by simp)

instance : IsTotal String strLeRel :=
  ⟨fun a b => by
    rcases strLeAux_total a.data b.data with h | h
    · exact Or.inl h
    · exact Or.inr h⟩

instance : IsTrans String strLeRel :=
  ⟨fun a b c h1 h2 => strLeAux_trans a.data b.data c.data h1 h2⟩

/-! ### `text_content` agrees with the specification formula -/

theorem strJoin_append (a b : List String) : strJoin (a ++ b) = strJoin a ++ strJoin b := by
  induction a with
  | nil => simp [strJoin]
  | cons s rest ih => simp [strJoin, ih, String.append_assoc]

mutual
theorem text_content_spec : ∀ e : Elem, text_content e = specTextContent e
  | .mk t a x cs tl => by
      have ih := tcParts_spec cs
      by_cases hx : x = ""
      · simp [text_content, specTextContent, hx, ih]
      · simp [text_content, specTextContent, hx, strJoin_append, strJoin, ih]
theorem tcParts_spec : ∀ cs : List Elem, strJoin (tcParts cs) = specTcList cs
  | [] => rfl
  | c :: cs => by
      have ih1 := text_content_spec c
      have ih2 := tcParts_spec cs
      by_cases ht : c.tail = ""
      · simp [tcParts, specTcList, ht, strJoin, strJoin_append, ih1, ih2]
      · simp [tcParts, specTcList, ht, strJoin, strJoin_append, ih1, ih2,
          String.append_assoc]
end

/-! ### Basic facts about the traversal -/

theorem updateTarget_tag (lang v : String) (t : Elem) :
    (updateTarget lang v t).tag = t.tag := by
  rcases t with ⟨tg, a, x, cs, tl⟩
  simp [updateTarget, Elem.tag]

theorem processElem_tag (p : List (String × String)) (l : String) :
    ∀ e : Elem, ((processElem p l e).1).tag = e.tag
  | .mk tag attrs text cs tl => by
      by_cases htu : endswith tag "trans-unit"
      · rcases hfs : findSource cs with _ | s
        · simp [processElem, htu, hfs, Elem.tag]
        · by_cases hpl : pyStrip (text_content s) = ""
          · simp [processElem, htu, hfs, hpl, Elem.tag]
          · rcases hlk : List.lookup (pyStrip (text_content s)) p with _ | v
            · simp [processElem, htu, hfs, hpl, hlk, Elem.tag]
            · simp [processElem, htu, hfs, hpl, hlk, Elem.tag]
      · simp [processElem, htu, Elem.tag]

/-! ### Subtrees without trans-units are left untouched -/

mutual
theorem processElem_noTU (p : List (String × String)) (l : String) :
    ∀ e : Elem, containsTU e = false → processElem p l e = (e, Stats.zero)
  | .mk tag attrs text cs tl => fun h => by
      have h' : endswith tag "trans-unit" = false ∧ containsTUL cs = false := by
        simpa [containsTU] using h
      simp [processElem, h'.1, processList_noTU p l cs h'.2]
theorem processList_noTU (p : List (String × String)) (l : String) :
    ∀ cs : List Elem, containsTUL cs = false → processList p l cs = (cs, Stats.zero)
  | [], _ => rfl
  | c :: cs, h => by
      have h' : containsTU c = false ∧ containsTUL cs = false := by
        simpa [containsTUL] using h
      simp [processList, processElem_noTU p l c h'.1, processList_noTU p l cs h'.2,
        Stats.zero_add]
end

/-! ### The stats accounting equation -/

mutual
theorem statsEq (p : List (String × String)) (l : String) :
    ∀ e : Elem, (processElem p l e).2.total
      = (processElem p l e).2.updated + (processElem p l e).2.missing.length
        + skippedElem e
  | .mk tag attrs text cs tl => by
      have ih := statsEqL p l cs
      by_cases htu : endswith tag "trans-unit"
      · rcases hfs : findSource cs with _ | s
        · simp [processElem, skippedElem, htu, hfs, Stats.add]
          omega
        · by_cases hpl : pyStrip (text_content s) = ""
          · simp [processElem, skippedElem, htu, hfs, hpl, Stats.add]
            omega
          · rcases hlk : List.lookup (pyStrip (text_content s)) p with _ | v
            · simp [processElem, skippedElem, htu, hfs, hpl, hlk, Stats.add]
              omega
            · simp [processElem, skippedElem, htu, hfs, hpl, hlk, Stats.add]
              omega
      · simp [processElem, skippedElem, htu]
        omega
theorem statsEqL (p : List (String × String)) (l : String) :
    ∀ cs : List Elem, (processList p l cs).2.total
      = (processList p l cs).2.updated + (processList p l cs).2.missing.length
        + skippedL cs
  | [] => by simp [processList, skippedL, Stats.zero]
  | c :: cs => by
      have ih1 := statsEq p l c
      have ih2 := statsEqL p l cs
      simp only [processList, skippedL, Stats.add, List.length_append] at *
      omega
end

/-! ### The hit-path mutation is idempotent -/

theorem updateTarget_idem (lang v : String) (t : Elem) :
    updateTarget lang v (updateTarget lang v t) = updateTarget lang v t := by
  rcases t with ⟨tg, a, x, cs, tl⟩
  have hne : xmlLangKey ≠ "state" := by decide
  simp only [updateTarget]
  have h1 : setAttr xmlLangKey lang
      (setAttr "state" "translated" (setAttr xmlLangKey lang a))
      = setAttr "state" "translated" (setAttr xmlLangKey lang a) := by
    apply setAttr_lookup_self
    rw [lookup_setAttr_other _ _ hne, lookup_setAttr_same]
  rw [h1, setAttr_setAttr_same]

theorem updateTargetChild_idem (lang v : String) :
    ∀ cs : List Elem, updateTargetChild lang v (updateTargetChild lang v cs)
      = updateTargetChild lang v cs
  | [] => by
      have h : (newTarget lang v).tag = "target" := rfl
      simp [updateTargetChild, h,
        show updateTarget lang v (newTarget lang v) = newTarget lang v from
          updateTarget_idem lang v (newTarget lang v)]
  | c :: cs => by
      by_cases h : c.tag = "target"
      · have h2 : (updateTarget lang v c).tag = "target" := by
          rw [updateTarget_tag]; exact h
        simp [updateTargetChild, h, h2, updateTarget_idem]
      · simp [updateTargetChild, h, updateTargetChild_idem lang v cs]

theorem findSource_updateTargetChild (lang v : String) :
    ∀ cs : List Elem, findSource (updateTargetChild lang v cs) = findSource cs
  | [] => by
      have h : endswith (newTarget lang v).tag "source" = false := by
        have ht : (newTarget lang v).tag = "target" := rfl
        rw [ht]; decide
      simp [findSource, updateTargetChild, List.find?, h]
  | c :: cs => by
      by_cases h : c.tag = "target"
      · have h1 : endswith (updateTarget lang v c).tag "source" = false := by
          rw [updateTarget_tag, h]; decide
        have h2 : endswith c.tag "source" = false := by rw [h]; decide
        have h3 : endswith "target" "source" = false := by decide
        simp [findSource, updateTargetChild, h, List.find?, h1, h2, h3]
      · by_cases hs : endswith c.tag "source"
        · simp [findSource, updateTargetChild, h, List.find?, hs]
        · have ih := findSource_updateTargetChild lang v cs
          simp only [findSource] at ih
          simp [findSource, updateTargetChild, h, List.find?, hs, ih]

theorem containsTUL_updateTargetChild (lang v : String) :
    ∀ cs : List Elem, containsTUL (updateTargetChild lang v cs) = containsTUL cs
  | [] => by
      have h : containsTU (newTarget lang v) = false := by
        have he : endswith "target" "trans-unit" = false := by decide
        simp [newTarget, containsTU, containsTUL, he]
      simp [updateTargetChild, containsTUL, h]
  | c :: cs => by
      by_cases h : c.tag = "target"
      · have h1 : containsTU (updateTarget lang v c) = containsTU c := by
          rcases c with ⟨tg, a, x, ccs, tl⟩
          simp [updateTarget, containsTU]
        simp [updateTargetChild, containsTUL, h, h1]
      · simp [updateTargetChild, containsTUL, h, containsTUL_updateTargetChild lang v cs]

/-! ### Idempotence of the merge on documents without nested trans-units -/

mutual
theorem processElem_idem (p : List (String × String)) (l : String) :
    ∀ e : Elem, noNestedTU e = true →
      processElem p l (processElem p l e).1 = processElem p l e
  | .mk tag attrs text cs tl => fun h => by
      by_cases htu : endswith tag "trans-unit"
      · have hcs : containsTUL cs = false := by
          simpa [noNestedTU, htu] using h
        have hid : processList p l cs = (cs, Stats.zero) := processList_noTU p l cs hcs
        rcases hfs : findSource cs with _ | s
        · have r1 : processElem p l (.mk tag attrs text cs tl)
              = (.mk tag attrs text cs tl, Stats.add ⟨1, 0, []⟩ Stats.zero) := by
            simp [processElem, htu, hfs, hid]
          rw [r1]
          exact r1
        · by_cases hpl : pyStrip (text_content s) = ""
          · have r1 : processElem p l (.mk tag attrs text cs tl)
                = (.mk tag attrs text cs tl, Stats.add ⟨1, 0, []⟩ Stats.zero) := by
              simp [processElem, htu, hfs, hpl, hid]
            rw [r1]
            exact r1
          · rcases hlk : List.lookup (pyStrip (text_content s)) p with _ | v
            · have r1 : processElem p l (.mk tag attrs text cs tl)
                  = (.mk tag attrs text cs tl,
                     Stats.add ⟨1, 0, [pyStrip (text_content s)]⟩ Stats.zero) := by
                simp [processElem, htu, hfs, hpl, hlk, hid]
              rw [r1]
              exact r1
            · have hcs2 : containsTUL (updateTargetChild l v cs) = false := by
                rw [containsTUL_updateTargetChild]; exact hcs
              have hid2 := processList_noTU p l (updateTargetChild l v cs) hcs2
              have hfs2 : findSource (updateTargetChild l v cs) = some s := by
                rw [findSource_updateTargetChild]; exact hfs
              simp [processElem, htu, hfs, hpl, hlk, hid, hid2, hfs2,
                setAttr_setAttr_same, updateTargetChild_idem]
      · have hns : noNestedTUL cs = true := by
          simpa [noNestedTU, htu] using h
        have ih := processList_idem p l cs hns
        simp [processElem, htu, ih]
theorem processList_idem (p : List (String × String)) (l : String) :
    ∀ cs : List Elem, noNestedTUL cs = true →
      processList p l (processList p l cs).1 = processList p l cs
  | [], _ => by simp [processList]
  | c :: cs, h => by
      have h1 : noNestedTU c = true ∧ noNestedTUL cs = true := by
        simpa [noNestedTUL] using h
      have ih1 := processElem_idem p l c h1.1
      have ih2 := processList_idem p l cs h1.2
      simp [processList, ih1, ih2]
end

/-! ### Frame property machinery -/

theorem scrub_tag (e : Elem) : (scrub e).tag = e.tag := by
  rcases e with ⟨tg, a, x, cs, tl⟩
  by_cases h : endswith tg "trans-unit"
  · simp [scrub, h, Elem.tag]
  · simp [scrub, h, Elem.tag]

theorem dropTargets_scrubL_updateTargetChild (lang v : String) :
    ∀ cs : List Elem, dropTargets (scrubL (updateTargetChild lang v cs))
      = dropTargets (scrubL cs)
  | [] => by
      have h : (scrub (newTarget lang v)).tag = "target" := by
        rw [scrub_tag]; rfl
      simp [updateTargetChild, scrubL, dropTargets, List.filter, h]
  | c :: cs => by
      by_cases h : c.tag = "target"
      · have h1 : (scrub (updateTarget lang v c)).tag = "target" := by
          rw [scrub_tag, updateTarget_tag]; exact h
        have h2 : (scrub c).tag = "target" := by rw [scrub_tag]; exact h
        simp [updateTargetChild, scrubL, dropTargets, List.filter, h, h1, h2]
      · have h2 : ((scrub c).tag = "target") = False := by
          rw [scrub_tag]; simp [h]
        have ih := dropTargets_scrubL_updateTargetChild lang v cs
        simp only [dropTargets, ne_eq, decide_not] at ih
        simp [updateTargetChild, scrubL, dropTargets, List.filter, h, h2, ih]

mutual
theorem scrub_processElem (p : List (String × String)) (l : String) :
    ∀ e : Elem, scrub ((processElem p l e).1) = scrub e
  | .mk tag attrs text cs tl => by
      have ih := scrubL_processList p l cs
      by_cases htu : endswith tag "trans-unit"
      · rcases hfs : findSource cs with _ | s
        · simp [processElem, htu, hfs, scrub, ih]
        · by_cases hpl : pyStrip (text_content s) = ""
          · simp [processElem, htu, hfs, hpl, scrub, ih]
          · rcases hlk : List.lookup (pyStrip (text_content s)) p with _ | v
            · simp [processElem, htu, hfs, hpl, hlk, scrub, ih]
            · simp [processElem, htu, hfs, hpl, hlk, scrub,
                removeAttr_setAttr, dropTargets_scrubL_updateTargetChild, ih]
      · simp [processElem, htu, scrub, ih]
theorem scrubL_processList (p : List (String × String)) (l : String) :
    ∀ cs : List Elem, scrubL ((processList p l cs).1) = scrubL cs
  | [] => by simp [processList, scrubL]
  | c :: cs => by
      have ih1 := scrub_processElem p l c
      have ih2 := scrubL_processList p l cs
      simp [processList, scrubL, ih1, ih2]
end

/-! ### With an empty Pair Table nothing is ever updated -/

mutual
theorem processElem_nil_updated (l : String) :
    ∀ e : Elem, (processElem [] l e).2.updated = 0
  | .mk tag attrs text cs tl => by
      have ih := processList_nil_updated l cs
      by_cases htu : endswith tag "trans-unit"
      · rcases hfs : findSource cs with _ | s
        · simp [processElem, htu, hfs, Stats.add, ih]
        · by_cases hpl : pyStrip (text_content s) = ""
          · simp [processElem, htu, hfs, hpl, Stats.add, ih]
          · simp [processElem, htu, hfs, hpl, List.lookup, Stats.add, ih]
      · simp [processElem, htu, ih]
theorem processList_nil_updated (l : String) :
    ∀ cs : List Elem, (processList [] l cs).2.updated = 0
  | [] => rfl
  | c :: cs => by
      simp [processList, Stats.add, processElem_nil_updated l c,
        processList_nil_updated l cs]
end

/-! ### What the hit-path mutation does to the target child -/

theorem updateTargetChild_of_found (lang v : String) :
    ∀ cs : List Elem, ∀ t : Elem,
      cs.find? (fun c => c.tag == "target") = some t →
      (updateTargetChild lang v cs).find? (fun c => c.tag == "target")
        = some (updateTarget lang v t)
  | [], t => by simp
  | c :: cs, t => fun h => by
      by_cases hc : c.tag = "target"
      · have hcb : (c.tag == "target") = true := by simp [hc]
        have ht : t = c := by
          simp only [List.find?, hcb, Option.some.injEq] at h
          exact h.symm
        subst ht
        have hub : ((updateTarget lang v t).tag == "target") = true := by
          simp [updateTarget_tag, hc]
        simp [updateTargetChild, hc, List.find?, hub]
      · have hcb : (c.tag == "target") = false := by simp [hc]
        simp only [List.find?, hcb] at h
        have ih := updateTargetChild_of_found lang v cs t h
        simp [updateTargetChild, hc, List.find?, hcb, ih]

theorem updateTargetChild_of_none (lang v : String) :
    ∀ cs : List Elem,
      cs.find? (fun c => c.tag == "target") = none →
      updateTargetChild lang v cs = cs ++ [newTarget lang v]
  | [] => fun _ => rfl
  | c :: cs => fun h => by
      by_cases hc : c.tag = "target"
      · have hcb : (c.tag == "target") = true := by simp [hc]
        simp [List.find?, hcb] at h
      · have hcb : (c.tag == "target") = false := by simp [hc]
        simp only [List.find?, hcb] at h
        simp [updateTargetChild, hc, updateTargetChild_of_none lang v cs h]

theorem find_append_newTarget (lang v : String) (cs : List Elem)
    (h : cs.find? (fun c => c.tag == "target") = none) :
    (cs ++ [newTarget lang v]).find? (fun c => c.tag == "target")
      = some (newTarget lang v) := by
  induction cs with
  | nil =>
      have hb : ((newTarget lang v).tag == "target") = true := rfl
      simp [List.find?, hb]
  | cons c rest ih =>
      by_cases hc : c.tag = "target"
      · have hcb : (c.tag == "target") = true := by simp [hc]
        simp [List.find?, hcb] at h
      · have hcb : (c.tag == "target") = false := by simp [hc]
        simp only [List.find?, hcb] at h
        simp [List.find?, hcb, ih h]

/-! ## Claim theorems -/

/-- C1, counterexample: a trans-unit with no source child is skipped by the
loop body yet still counted in `total_trans_units`, so the claimed equality
`total = updated + raw unmatched` fails on such a document. -/
theorem C1_cex :
    ¬ ((processElem [] "ar-EG" tuNoSource).2.total
        = (processElem [] "ar-EG" tuNoSource).2.updated
          + (processElem [] "ar-EG" tuNoSource).2.missing.length) := by decide

/-- C1 (amended): `total_trans_units` counts every element whose tag ends in
`"trans-unit"`, including skipped ones; for every document it equals
`updated_segments` plus the raw unmatched count plus the number of skipped
units (no source child, or empty trimmed plain text), each visited unit
being classified exactly once among those three outcomes. -/
theorem C1_total_equals_updated_plus_unmatched_plus_skipped
    (p : List (String × String)) (l : String) (e : Elem) :
    (processElem p l e).2.total
      = (processElem p l e).2.updated + (processElem p l e).2.missing.length
        + skippedElem e :=
  statsEq p l e

/-- C2, counterexample: `process_mqxliff`, the merge operation, does not
check the Pair Table for emptiness — called with zero pairs on a one-unit
document it still reads, traverses and writes the document, returning a
normal report instead of failing. -/
theorem C2_cex :
    (process_mqxliff [] "ar-EG" (.mk "body" [] "" [tuFlat "Hello"] "")
        "out.mqxliff").1.2.1.total_trans_units = 1
    ∧ Event.readDoc ∈ (process_mqxliff [] "ar-EG"
        (.mk "body" [] "" [tuFlat "Hello"] "") "out.mqxliff").2
    ∧ Event.writeDoc ∈ (process_mqxliff [] "ar-EG"
        (.mk "body" [] "" [tuFlat "Hello"] "") "out.mqxliff").2 := by decide

/-- C2 (amended): the emptiness check lives in the CLI caller, not in the
merge operation: `main` exits with code 2 after loading the Pair Table and
before any document I/O, while `process_mqxliff` itself accepts an empty
table, performs its document I/O, and updates nothing. -/
theorem C2_empty_pair_table (l : String) (d : Elem) (o : String) :
    mainModel [] l d o = (Except.error 2, [Event.readExcel])
    ∧ (process_mqxliff [] l d o).1.2.1.updated_segments = 0
    ∧ Event.readDoc ∈ (process_mqxliff [] l d o).2 := by
  refine ⟨rfl, ?_, by simp [process_mqxliff]⟩
  simp [process_mqxliff, processElem_nil_updated]

/-- C4, counterexample: when the existing target element carries a child
element, the hit path only replaces the target's leading text, so the
target's derived text content is the table value followed by the child's
content — `"NEWx"` — not exactly the value `"NEW"`. -/
theorem C4_cex :
    List.lookup "Hello" pairsHello = some "NEW"
    ∧ text_content (((processElem pairsHello "L" docTargetChild).1.children.headD
        tuNoSource).children.getD 1 tuNoSource) = "NEWx"
    ∧ "NEWx" ≠ "NEW" := by decide

/-- C4 (amended): on a hit the first exact-tag `"target"` child has its
leading text set to exactly the table value (full replacement, no appending
or whitespace) and keeps its children, so its derived text content is
exactly the value whenever it has no child elements; when no target child
exists, a fresh one is appended whose text content is exactly the value. -/
theorem C4_target_text_replacement (lang v : String) (cs : List Elem) :
    (∀ t : Elem, cs.find? (fun c => c.tag == "target") = some t →
       (updateTargetChild lang v cs).find? (fun c => c.tag == "target")
         = some (updateTarget lang v t)
       ∧ (updateTarget lang v t).text = v
       ∧ (updateTarget lang v t).children = t.children
       ∧ (t.children = [] → text_content (updateTarget lang v t) = v))
    ∧ (cs.find? (fun c => c.tag == "target") = none →
       updateTargetChild lang v cs = cs ++ [newTarget lang v]
       ∧ (newTarget lang v).text = v
       ∧ text_content (newTarget lang v) = v) := by
  constructor
  · intro t ht
    refine ⟨updateTargetChild_of_found lang v cs t ht, ?_, ?_, ?_⟩
    · rcases t with ⟨tg, a, x, tcs, tl⟩
      rfl
    · rcases t with ⟨tg, a, x, tcs, tl⟩
      rfl
    · intro hnil
      rcases t with ⟨tg, a, x, tcs, tl⟩
      simp only [Elem.children] at hnil
      subst hnil
      by_cases hv : v = ""
      · simp [updateTarget, text_content, tcParts, strJoin, hv]
      · simp [updateTarget, text_content, tcParts, strJoin, hv]
  · intro hn
    refine ⟨updateTargetChild_of_none lang v cs hn, rfl, ?_⟩
    by_cases hv : v = ""
    · simp [newTarget, text_content, tcParts, strJoin, hv]
    · simp [newTarget, text_content, tcParts, strJoin, hv]

/-- Witness for C4 (amended) at a concrete target child `<target>old</target>`. -/
theorem C4_target_text_replacement_witness :
    ((updateTargetChild "L" "NEW" [.mk "target" [] "old" [] ""]).find?
        (fun c => c.tag == "target")
      = some (updateTarget "L" "NEW" (.mk "target" [] "old" [] "")))
    ∧ text_content (updateTarget "L" "NEW" (.mk "target" [] "old" [] "")) = "NEW" := by
  have h := (C4_target_text_replacement "L" "NEW" [.mk "target" [] "old" [] ""]).1
    (.mk "target" [] "old" [] "") (by decide)
  exact ⟨h.1, h.2.2.2 (by decide)⟩

/-- C5: the derived plain text of an element is its leading text followed,
for each child in order, by the child's recursive plain text and the child's
tail, exactly as the spec formula states; in particular
`<source>Hello <b>world</b>!</source>` yields `"Hello world!"` and such a
unit matches the Pair Table key `"Hello world!"`. -/
theorem C5_plain_text_derivation :
    (∀ e : Elem, text_content e = specTextContent e)
    ∧ text_content (.mk "source" [] "Hello " [.mk "b" [] "world" [] "!"] "")
        = "Hello world!"
    ∧ (processElem [("Hello world!", "X")] "L"
        (.mk "body" [] ""
          [.mk "trans-unit" [] ""
            [.mk "source" [] "Hello " [.mk "b" [] "world" [] "!"] ""] ""] "")).2
      = ⟨1, 1, []⟩ :=
  ⟨text_content_spec, by decide, by decide⟩

/-- C7, counterexample: with a trans-unit nested inside another unit's
source, the first run rewrites the inner target and thereby changes the
outer unit's plain source text, so the second run over the first run's
output produces a different report (one update and one unmatched source
instead of two updates). -/
theorem C7_cex :
    (processElem pairsNested "L" (processElem pairsNested "L" docNested).1).2
      ≠ (processElem pairsNested "L" docNested).2 := by decide

/-- C7 (amended): for documents in which no trans-unit is nested inside
another, re-running the merge on the first run's output with the same Pair
Table, language and output path reproduces the identical tree (hence a
byte-identical serialization), report and CSV. -/
theorem C7_idempotent_when_unnested (p : List (String × String)) (l : String)
    (d : Elem) (o : String) (h : noNestedTU d = true) :
    process_mqxliff p l ((process_mqxliff p l d o).1.1) o
      = process_mqxliff p l d o := by
  simp [process_mqxliff, processElem_idem p l d h]

/-- Witness for C7 (amended) on the spec's three-unit scenario document. -/
theorem C7_idempotent_when_unnested_witness :
    noNestedTU docScenario = true
    ∧ process_mqxliff pairsScenario "ar-EG"
        ((process_mqxliff pairsScenario "ar-EG" docScenario "out.mqxliff").1.1)
        "out.mqxliff"
      = process_mqxliff pairsScenario "ar-EG" docScenario "out.mqxliff" :=
  ⟨by decide, C7_idempotent_when_unnested pairsScenario "ar-EG" docScenario
    "out.mqxliff" (by decide)⟩

/-- C8, counterexample: a unit whose own source has no Pair Table match can
still have its subtree changed, because a nested trans-unit inside it may
match: here the outer `"ZZZ"` unit is recorded unmatched, yet its subtree
differs after the merge. -/
theorem C8_cex :
    (processElem pairsQ "L" docMissWithNested).2.missing = ["ZZZ"]
    ∧ (processElem pairsQ "L" docMissWithNested).1.children.headD tuNoSource
      ≠ docMissWithNested.children.headD tuNoSource := by decide

/-- C8 (amended): the merge mutates nothing outside trans-units' `approved`
attributes and their direct exact-tag `"target"` children (updated in place
or freshly appended): erasing exactly those from every trans-unit yields
the same tree before and after the merge, for every document and table. -/
theorem C8_frame_outside_targets (p : List (String × String)) (l : String)
    (e : Elem) : scrub ((processElem p l e).1) = scrub e :=
  scrub_processElem p l e

/-- C9, counterexample: tag matching is a suffix test, not a local-name
comparison — an element tagged `"my-trans-unit"` is visited, counted and
updated as a translation unit, contradicting the claim that it is not. -/
theorem C9_cex :
    isTU (.mk "my-trans-unit" [] "" [] "") = true
    ∧ (processElem pairsHello "L" docMyTU).2 = ⟨1, 1, []⟩ := by decide

/-- C9 (amended): an element is treated as a trans-unit iff its qualified
tag ends with `"trans-unit"`, and a child is the source iff its tag ends
with `"source"`; this covers every ElementTree namespace expansion
`{uri}trans-unit` but also accepts local names such as `"my-trans-unit"`. -/
theorem C9_suffix_matching :
    (∀ u : String, isTU (.mk (nsTag u "trans-unit") [] "" [] "") = true)
    ∧ isTU (.mk "my-trans-unit" [] "" [] "") = true
    ∧ (∀ u x : String, ∀ rest : List Elem,
        findSource (.mk (nsTag u "source") [] x [] "" :: rest)
          = some (.mk (nsTag u "source") [] x [] ""))
    ∧ (processElem pairsHello "L" docMyTU).2.total = 1 := by
  refine ⟨?_, by decide, ?_, by decide⟩
  · intro u
    simp [isTU, Elem.tag, nsTag, endswith_append]
  · intro u x rest
    simp [findSource, List.find?, Elem.tag, nsTag, endswith_append]

/-- C10: every run writes the unmatched-sources CSV next to the output
document (stem plus `"_missing_sources.csv"`), and when every unit matched
the file consists of exactly the header row. -/
theorem C10_csv_always_written (p : List (String × String)) (l : String)
    (d : Elem) (o : String) (h : (processElem p l d).2.missing = []) :
    (process_mqxliff p l d o).1.2.2 = ["SourceWithoutMatch"]
    ∧ Event.writeCsv ∈ (process_mqxliff p l d o).2
    ∧ (process_mqxliff p l d o).1.2.1.missing_sources_csv = missingCsvPath o
    ∧ missingCsvPath "dir/out.mqxliff" = "dir/out_missing_sources.csv" := by
  refine ⟨?_, by simp [process_mqxliff], rfl, by decide⟩
  simp [process_mqxliff, csvRows, sortedMissing, h]

/-- Witness for C10 on a document whose only unit matches. -/
theorem C10_csv_always_written_witness :
    (processElem pairsHello "L" (.mk "body" [] "" [tuFlat "Hello"] "")).2.missing = []
    ∧ (process_mqxliff pairsHello "L" (.mk "body" [] "" [tuFlat "Hello"] "")
        "dir/out.mqxliff").1.2.2 = ["SourceWithoutMatch"] :=
  ⟨by decide, (C10_csv_always_written pairsHello "L"
    (.mk "body" [] "" [tuFlat "Hello"] "") "dir/out.mqxliff" (by decide)).1⟩

/-- C6: the reported `missing_sources_count` is the size of the deduplicated
unmatched set (never the raw occurrence count), it never exceeds
`total_trans_units`, and the CSV consists of the header row followed by
exactly the distinct unmatched sources, sorted, without duplicates. -/
theorem C6_missing_report (p : List (String × String)) (l : String) (d : Elem)
    (o : String) :
    (process_mqxliff p l d o).1.2.1.missing_sources_count
        = (processElem p l d).2.missing.dedup.length
    ∧ (process_mqxliff p l d o).1.2.1.missing_sources_count
        ≤ (process_mqxliff p l d o).1.2.1.total_trans_units
    ∧ (process_mqxliff p l d o).1.2.2
        = "SourceWithoutMatch" :: sortedMissing (processElem p l d).2.missing
    ∧ List.Sorted strLeRel (sortedMissing (processElem p l d).2.missing)
    ∧ (sortedMissing (processElem p l d).2.missing).Nodup
    ∧ (∀ s : String, s ∈ sortedMissing (processElem p l d).2.missing
        ↔ s ∈ (processElem p l d).2.missing) := by
  refine ⟨rfl, ?_, rfl, ?_, ?_, ?_⟩
  · have h1 := statsEq p l d
    have h2 : (processElem p l d).2.missing.dedup.length
        ≤ (processElem p l d).2.missing.length :=
      List.Sublist.length_le (List.dedup_sublist _)
    simp only [process_mqxliff]
    omega
  · exact List.sorted_insertionSort strLeRel _
  · have hperm := List.perm_insertionSort strLeRel (processElem p l d).2.missing.dedup
    exact (hperm.nodup_iff).mpr (List.nodup_dedup _)
  · intro s
    have hperm := List.perm_insertionSort strLeRel (processElem p l d).2.missing.dedup
    rw [sortedMissing, hperm.mem_iff, List.mem_dedup]

/-- C3, counterexample: in a namespaced document the existing `{u}target`
child is not located by `tu.find("target")` (which matches the exact tag
only), so instead of being updated it is left untouched and a second,
un-namespaced target child is appended — unlike the un-namespaced document,
whose single target is updated in place. -/
theorem C3_cex :
    ((processElem pairsHello "L" (docNS "u")).1.children.headD
        tuNoSource).children.countP (fun c => endswith c.tag "target") = 2
    ∧ ((processElem pairsHello "L" docPlainTags).1.children.headD
        tuNoSource).children.countP (fun c => endswith c.tag "target") = 1 := by decide

/-- C3 (amended): for every namespace `u`, the namespaced document is
traversed exactly like the plain one — the same unit is visited, the same
match found, and the reports coincide — but on a hit the target lookup uses
the exact tag `"target"`, so the existing `{u}target` child (text `"old"`)
is kept unchanged and a fresh un-namespaced target holding the new text is
appended, while the plain document's existing target is updated in place. -/
theorem C3_namespace_tolerance (u : String) :
    processElem pairsHello "ar" (docNS u)
      = (.mk "body" [] ""
          [.mk (nsTag u "trans-unit") [("approved", "yes")] ""
             [.mk (nsTag u "source") [] "Hello" [] "",
              .mk (nsTag u "target") [] "old" [] "",
              newTarget "ar" "NEW"] ""] "",
         ⟨1, 1, []⟩)
    ∧ processElem pairsHello "ar" docPlainTags
      = (.mk "body" [] ""
          [.mk "trans-unit" [("approved", "yes")] ""
             [.mk "source" [] "Hello" [] "",
              .mk "target" [(xmlLangKey, "ar"), ("state", "translated")] "NEW" [] ""]
             ""] "",
         ⟨1, 1, []⟩)
    ∧ (processElem pairsHello "ar" (docNS u)).2
        = (processElem pairsHello "ar" docPlainTags).2 := by
  have h1 : endswith (nsTag u "trans-unit") "trans-unit" = true :=
    endswith_append ("\x7b" ++ u ++ "\x7d") "trans-unit"
  have h2 : endswith (nsTag u "source") "source" = true :=
    endswith_append ("\x7b" ++ u ++ "\x7d") "source"
  have h3 : endswith (nsTag u "source") "trans-unit" = false :=
    endswith_append_false ("\x7b" ++ u ++ "\x7d") (by decide) (by decide)
  have h4 : endswith (nsTag u "target") "trans-unit" = false :=
    endswith_append_false ("\x7b" ++ u ++ "\x7d") (by decide) (by decide)
  have h5 : endswith "body" "trans-unit" = false := by decide
  have e1 : ("\x7b" : String).length = 1 := rfl
  have e2 : ("\x7d" : String).length = 1 := rfl
  have e3 : ("source" : String).length = 6 := rfl
  have e4 : ("target" : String).length = 6 := rfl
  have h6 : ¬ (nsTag u "source" = "target") := by
    intro q
    have hl := congrArg String.length q
    simp [nsTag, String.length_append, e1, e2, e3, e4] at hl
  have h7 : ¬ (nsTag u "target" = "target") := by
    intro q
    have hl := congrArg String.length q
    simp [nsTag, String.length_append, e1, e2, e4] at hl
  have hcl : containsTUL
      [.mk (nsTag u "source") [] "Hello" [] "", .mk (nsTag u "target") [] "old" [] ""]
      = false := by
    simp [containsTU, containsTUL, Elem.tag, h3, h4]
  have hplist := processList_noTU pairsHello "ar" _ hcl
  have hfs : findSource
      [.mk (nsTag u "source") [] "Hello" [] "", .mk (nsTag u "target") [] "old" [] ""]
      = some (.mk (nsTag u "source") [] "Hello" [] "") := by
    simp [findSource, List.find?, Elem.tag, h2]
  have htc : pyStrip (text_content (.mk (nsTag u "source") [] "Hello" [] "")) = "Hello" := by
    have hre : text_content (.mk (nsTag u "source") [] "Hello" [] "") = "Hello" := rfl
    rw [hre]
    decide
  have hlk : List.lookup "Hello" pairsHello = some "NEW" := by decide
  have hupd : updateTargetChild "ar" "NEW"
      [.mk (nsTag u "source") [] "Hello" [] "", .mk (nsTag u "target") [] "old" [] ""]
      = [.mk (nsTag u "source") [] "Hello" [] "", .mk (nsTag u "target") [] "old" [] "",
         newTarget "ar" "NEW"] := by
    simp [updateTargetChild, Elem.tag, h6, h7]
  have htu : processElem pairsHello "ar"
      (.mk (nsTag u "trans-unit") [] ""
        [.mk (nsTag u "source") [] "Hello" [] "", .mk (nsTag u "target") [] "old" [] ""] "")
      = (.mk (nsTag u "trans-unit") [("approved", "yes")] ""
          [.mk (nsTag u "source") [] "Hello" [] "", .mk (nsTag u "target") [] "old" [] "",
           newTarget "ar" "NEW"] "",
         ⟨1, 1, []⟩) := by
    simp [processElem, h1, hfs, htc, hlk, hplist, hupd, setAttr, Stats.add, Stats.zero]
  have hns : processElem pairsHello "ar" (docNS u)
      = (.mk "body" [] ""
          [.mk (nsTag u "trans-unit") [("approved", "yes")] ""
             [.mk (nsTag u "source") [] "Hello" [] "",
              .mk (nsTag u "target") [] "old" [] "",
              newTarget "ar" "NEW"] ""] "",
         ⟨1, 1, []⟩) := by
    have hx : processList pairsHello "ar"
        [.mk (nsTag u "trans-unit") [] ""
          [.mk (nsTag u "source") [] "Hello" [] "", .mk (nsTag u "target") [] "old" [] ""] ""]
        = ([.mk (nsTag u "trans-unit") [("approved", "yes")] ""
             [.mk (nsTag u "source") [] "Hello" [] "", .mk (nsTag u "target") [] "old" [] "",
              newTarget "ar" "NEW"] ""],
           ⟨1, 1, []⟩) := by
      simp only [processList, htu]
      simp [Stats.add, Stats.zero]
    simp only [docNS, processElem, h5]
    simp [hx]
  have hpt : processElem pairsHello "ar" docPlainTags
      = (.mk "body" [] ""
          [.mk "trans-unit" [("approved", "yes")] ""
             [.mk "source" [] "Hello" [] "",
              .mk "target" [(xmlLangKey, "ar"), ("state", "translated")] "NEW" [] ""]
             ""] "",
         ⟨1, 1, []⟩) := by decide
  refine ⟨hns, hpt, ?_⟩
  rw [hns, hpt]
